import Mathlib

/-!
# Verification of the `rload` HTTP load generator

Shallow embedding of the core of the `rload` benchmarking tool
(`src/main.rs`, `src/generator.rs`, `src/workload.rs`) and proofs about it.

Modelling conventions:
* Rust `u64` arithmetic is modelled on `ℕ` with an explicit `% U64`
  (`U64 = 2 ^ 64`) wherever the source performs wrapping `u64` operations.
* `std::time::Duration` values and `f64` quantities (inter-arrival times,
  percentile arguments, the hot-traffic accumulator) are modelled as exact
  rationals `ℚ`; nanosecond quantisation and floating-point rounding are
  abstracted away.
* A Rust panic (failed `assert!`/out-of-bounds index) is modelled as `none`
  of an `Option` result.
* The asynchronous parts (timer thread, request tasks, token pool) are
  modelled as explicit functions of the observed clock / response oracle,
  and as a labelled transition system for the token pool.
-/

namespace RLoad

/-- Modulus of Rust `u64` arithmetic. -/
def U64 : ℕ := 2 ^ 64

/-! ## workload.rs -/

/-- The `RequestType` enum of `main.rs` (variants `Matmul`, `Compute`, `Io`). -/
inductive RequestType
  | matmul
  | compute
  | io
deriving DecidableEq, Repr

/-- Entry of the input matrix at flat index `idx`:
`in_mat = (1..input_size * input_size + 1).collect()`, so `in_mat[idx] = idx + 1`. -/
def inMat (idx : ℕ) : ℕ := idx + 1

/-- The value stored in `out_mat[i * n + j]` by the triple loop of
`RequestType::checksum` (`workload.rs` lines 50-58):
`out_mat[i*n+j] += in_mat[i*n+k] * in_mat[j*n+k]` for `k = 0..n`,
with `u64` wrapping multiplication and addition. -/
def mmEntry (n i j : ℕ) : ℕ :=
  (List.range n).foldl (fun acc k => (acc + (inMat (i * n + k) * inMat (j * n + k)) % U64) % U64) 0

/-- The full `out_mat` vector, row-major of length `n * n`. -/
def outMat (n : ℕ) : List ℕ :=
  (List.range (n * n)).map (fun idx => mmEntry n (idx / n) (idx % n))

/-- `RequestType::checksum` (`workload.rs` lines 45-64).
`Matmul` reads `out_mat[out_mat.len() - 1]`; on an empty `out_mat`
(`input_size = 0`) the index computation panics, modelled as `none`. -/
def checksum : RequestType → ℕ → Option ℕ
  | .matmul, n =>
      let out := outMat n
      if out.length = 0 then none
      else some (out.getD (out.length - 1) 0)
  | .compute, n => some n
  | .io, _ => some 2000000

/-- Stated from the claim: entry `A[i][k]` of the row-major `N×N` matrix with
entries `1..N²`, i.e. `A[i][k] = i*N + k + 1`. -/
def specA (n i k : ℕ) : ℕ := i * n + k + 1

/-- Stated from the claim: the last element of `A·Aᵀ`, i.e.
`(A·Aᵀ)[N-1][N-1] = Σ_k A[N-1][k]²`, reduced by the `u64` modulus. -/
def specAATLast (n : ℕ) : ℕ :=
  (((List.range n).map (fun k => specA n (n - 1) k * specA n (n - 1) k)).sum) % U64

/-! ## Records and the benchmark log (`main.rs` lines 110-176) -/

/-- The `Record` struct (`main.rs` lines 110-118).  Timestamps are natural
numbers (microseconds since the epoch); the Rust field `end` is named
`endTime` here because `end` is a Lean keyword.  The `url` field is omitted:
no claim depends on it. -/
structure Record where
  start : ℕ
  endTime : ℕ
  timeout : Bool
  error : Bool
  status : Option ℕ
deriving DecidableEq, Repr

/-- `Record::duration` (`main.rs` lines 125-127): `end - start`. -/
def Record.duration (r : Record) : ℕ := r.endTime - r.start

/-- The `BenchLog` struct (`main.rs` lines 130-134). -/
structure BenchLog where
  records : List Record
  timeouts : ℕ
  errors : ℕ
deriving DecidableEq, Repr

/-- `BenchLog::new` (capacity hint dropped). -/
def BenchLog.new : BenchLog := ⟨[], 0, 0⟩

/-- `BenchLog::add_record` (`main.rs` lines 145-153). -/
def BenchLog.add_record (log : BenchLog) (r : Record) : BenchLog :=
  { records := log.records ++ [r]
    timeouts := log.timeouts + (if r.timeout then 1 else 0)
    errors := log.errors + (if r.error then 1 else 0) }

/-- `BenchLog::total`. -/
def BenchLog.total (log : BenchLog) : ℕ := log.records.length

/-- `BenchLog::errors` (`main.rs` lines 159-161); renamed to avoid clashing
with the field of the same name. -/
def BenchLog.errorTotal (log : BenchLog) : ℕ := log.timeouts + log.errors

/-- Rust `as usize` cast of a non-negative-or-small rational: truncation
toward zero, saturating at `0` for negative inputs.  On `q > -1` this is
`⌊q⌋.toNat`, and for `q ≤ -1` both the saturating cast and `⌊q⌋.toNat`
give `0`. -/
def rustCastUsize (q : ℚ) : ℕ := (⌊q⌋).toNat

/-- `BenchLog::latencies` (`main.rs` lines 163-175): sort all record
durations, then for each percentage `p` read
`latency.get((len * p - 1.0) / 100.0 as usize)`, defaulting to `0`
(`Duration::default`) when out of range. -/
def BenchLog.latencies (log : BenchLog) (ps : List ℚ) : List ℕ :=
  let latency := List.insertionSort (fun a b => a ≤ b) (log.records.map Record.duration)
  ps.map (fun p =>
    latency.getD (rustCastUsize (((latency.length : ℚ) * p - 1) / 100)) 0)

/-! ## Warm-up schedule and aggregation (`main.rs` lines 195-205, 289-295) -/

/-- The warm-up ramp `(RATE_INC_PER_SEC..rate).step_by(RATE_INC_PER_SEC)`
with `RATE_INC_PER_SEC = 1000`: the per-second rates
`1000, 2000, …` strictly below `rate`.  The element `1000 * (j + 1)` is in
the ramp iff `1000 * (j + 1) < rate`, i.e. iff `j < (rate - 1) / 1000`. -/
def warmupRates (rate : ℕ) : List ℕ :=
  (List.range ((rate - 1) / 1000)).map (fun j => 1000 * (j + 1))

/-- `num_warmup` (`main.rs` line 202): the sum of the warm-up ramp's
per-second rates, `0` when `--no-warmup` is set. -/
def numWarmup (no_warmup : Bool) (rate : ℕ) : ℕ :=
  if no_warmup then 0 else (warmupRates rate).sum

/-- The aggregation loop (`main.rs` lines 289-295): count every received
record, and fold it into the `BenchLog` only once `num_received > num_warmup`. -/
def aggregateGo (nw : ℕ) : ℕ → BenchLog → List Record → BenchLog
  | _, log, [] => log
  | nr, log, r :: rest =>
      aggregateGo nw (nr + 1) (if nw < nr + 1 then log.add_record r else log) rest

/-- The aggregator run on a full arrival-ordered list of records. -/
def aggregate (nw : ℕ) (rs : List Record) : BenchLog :=
  aggregateGo nw 0 BenchLog.new rs

/-! ## HotGenerator (`main.rs` lines 84-108) -/

/-- The `HotGenerator` struct: a deterministic accumulator.
`request_counter` is initialised with `rand::random()`, a value in `[0, 1)`. -/
structure HotGenerator where
  hot_percent : ℚ
  request_counter : ℚ
deriving DecidableEq, Repr

/-- `HotGenerator::next` (`main.rs` lines 99-107): add `hot_percent` to the
counter; if it reaches `1.0`, subtract `1.0` and route hot. -/
def HotGenerator.next (g : HotGenerator) : Bool × HotGenerator :=
  let c := g.request_counter + g.hot_percent
  if 1 ≤ c then (true, { g with request_counter := c - 1 })
  else (false, { g with request_counter := c })

/-- Iterate `HotGenerator::next` `n` times; return the number of hot-routed
requests and the final generator state. -/
def HotGenerator.run (g : HotGenerator) : ℕ → ℕ × HotGenerator
  | 0 => (0, g)
  | n + 1 =>
      let s := g.next
      let r := s.2.run n
      ((if s.1 then 1 else 0) + r.1, r.2)

/-! ## ConstGen (`generator.rs` lines 4-37) -/

/-- The `ConstGen` struct (`generator.rs` lines 4-9).  Durations are modelled
as exact rational seconds. -/
structure ConstGen where
  now : ℚ
  duration : ℚ
  iat : ℚ
  expected : ℕ
deriving DecidableEq, Repr

/-- `ConstGen::new` (`generator.rs` lines 12-19): `now = 0`,
`iat = 1 / rate` (the `f64` division and `Duration` quantisation are
modelled exactly), `expected = duration.as_secs() * rate` — the duration is
a whole number of seconds `durationSecs`. -/
def ConstGen.new (durationSecs : ℕ) (rate : ℕ) : ConstGen :=
  { now := 0
    duration := (durationSecs : ℚ)
    iat := 1 / (rate : ℚ)
    expected := durationSecs * rate }

/-- `ConstGen::expected_len` (`generator.rs` lines 21-23). -/
def ConstGen.expected_len (g : ConstGen) : ℕ := g.expected

/-- `<ConstGen as Iterator>::next` (`generator.rs` lines 29-36):
while `now < duration`, advance `now` by `iat` and yield it. -/
def ConstGen.next (g : ConstGen) : Option (ℚ × ConstGen) :=
  if g.now < g.duration then
    some (g.now + g.iat, { g with now := g.now + g.iat })
  else none

/-- The full offset sequence produced by iterating `ConstGen::next`.
The side condition `0 < g.iat` makes the function total; whenever
`0 < iat` (i.e. `rate > 0`, the only case in which the schedule is
consumed) this is exactly the sequence the Rust iterator yields. -/
def ConstGen.toList (g : ConstGen) : List ℚ :=
  if h : 0 < g.iat ∧ g.now < g.duration then
    (g.now + g.iat) :: ConstGen.toList { g with now := g.now + g.iat }
  else []
termination_by (⌈(g.duration - g.now) / g.iat⌉).toNat
decreasing_by
  have hiat := h.1
  have hlt := h.2
  have hkey : ((g.duration - (g.now + g.iat)) / g.iat) = (g.duration - g.now) / g.iat - 1 := by
    field_simp
    ring
  rw [hkey, Int.ceil_sub_one]
  have hpos : 0 < ⌈(g.duration - g.now) / g.iat⌉ := by
    rw [Int.lt_ceil]
    push_cast
    exact div_pos (by linarith) hiat
  omega

/-- The constant-rate schedule for a whole-second duration `D` and rate `r`. -/
def constGen (D r : ℕ) : List ℚ := (ConstGen.new D r).toList

/-! ## Dispatcher timer thread (`main.rs` lines 211-232) -/

/-- The slack constant `REQ_ISSUE_SLACK_MS = 100` ms, in seconds. -/
def reqIssueSlack : ℚ := 100 / 1000

/-- The timer loop for `rate > 0` (`main.rs` lines 218-228).  `now n` is the
monotonic-clock reading (seconds since `base`) observed when the `n`-th
offset is examined; for each offset `d`, if `now n - d` exceeds the slack
the thread returns the `Could not keep up` error, otherwise it sleeps to
the deadline and emits a tick.  Returns the number of ticks emitted and the
error, if any. -/
def timerRun (slack : ℚ) (now : ℕ → ℚ) : List ℚ → ℕ → ℕ × Option String
  | [], n => (n, none)
  | d :: rest, n =>
      if slack < now n - d then (n, some "Could not keep up")
      else timerRun slack now rest (n + 1)

/-- The timer thread run on the whole schedule. -/
def taskTimer (slack : ℚ) (now : ℕ → ℚ) (offsets : List ℚ) : ℕ × Option String :=
  timerRun slack now offsets 0

/-- The end of `tokio_main` (`main.rs` lines 327-334): `task_timer.await??`
propagates the timer thread's error as the run's terminal error, and the
run otherwise finishes with `Ok(())`. -/
def finishRun : ℕ × Option String → Except String Unit
  | (_, some e) => .error e
  | (_, none) => .ok ()

/-- The timer loop for `rate == 0` (`main.rs` lines 213-216):
`while base.elapsed() < duration { send tick }`, with no deadline check.
`clock i` is the elapsed time observed at the `i`-th loop test; the loop
terminates because the wall clock is monotone and eventually reaches the
duration (hypotheses `hex`, `hmono`).  Returns the number of ticks sent. -/
def unboundedLoop (D : ℚ) (clock : ℕ → ℚ) (hex : ∃ n, D ≤ clock n)
    (hmono : ∀ a b, a ≤ b → clock a ≤ clock b) (i : ℕ) : ℕ :=
  if hlt : clock i < D then unboundedLoop D clock hex hmono (i + 1) + 1 else 0
termination_by Nat.find hex - i
decreasing_by
  have hfind : i < Nat.find hex := by
    by_contra hge
    push_neg at hge
    exact absurd (le_trans (Nat.find_spec hex) (hmono _ _ hge)) (not_le.mpr hlt)
  omega

/-- Tick count of the unbounded (`rate == 0`) timer loop. -/
def unboundedTicks (D : ℚ) (clock : ℕ → ℚ) (hex : ∃ n, D ≤ clock n)
    (hmono : ∀ a b, a ≤ b → clock a ≤ clock b) : ℕ :=
  unboundedLoop D clock hex hmono 0

/-! ## Request task (`main.rs` lines 248-285) -/

/-- Outcome of `request.send().await.and_then(|r| r.error_for_status())`:
either a response with a non-error status and a body, or a failure, which
is a timeout (`e.is_timeout()`) or some other error carrying an optional
status code (`e.status()`). -/
inductive RespResult
  | success (status : ℕ) (body : List ℕ)
  | failure (isTimeout : Bool) (status : Option ℕ)
deriving DecidableEq, Repr

/-- `u64::from_be_bytes` on the response body: interpret the 8 bytes as a
big-endian 64-bit integer. -/
def beDecode (body : List ℕ) : ℕ :=
  body.foldl (fun acc b => acc * 256 + b % 256) 0

/-- The body of one spawned request task (`main.rs` lines 248-285): build
the record, classify the response, and on a non-error status run the body
assertions `assert_eq!(body.len(), 8)` and
`assert_eq!(checksum, expected_checksum)`.  A failed assertion panics the
task — no record is sent and no token is returned — modelled as `none`. -/
def requestTask (expected startT endT : ℕ) : RespResult → Option Record
  | .success s body =>
      if body.length = 8 then
        if beDecode body = expected then
          some { start := startT, endTime := endT, timeout := false, error := false,
                 status := some s }
        else none
      else none
  | .failure true _ =>
      some { start := startT, endTime := endT, timeout := true, error := false, status := none }
  | .failure false st =>
      some { start := startT, endTime := endT, timeout := false, error := true, status := st }

/-- Number of `RequestOutcome` records the task emits onto the aggregation
channel (`record_tx.send`, `main.rs` line 284): one on every non-panicking
path, zero when an assertion panics. -/
def recordsEmitted (expected startT endT : ℕ) (res : RespResult) : ℕ :=
  (requestTask expected startT endT res).toList.length

/-- Number of tokens the task returns to the pool
(`let _ = user_tx.send(user_id).await`, `main.rs` line 283):
one attempt on every non-panicking path; the attempt lands only when the
pool's receiving side is still open (`poolOpen`), and its failure is
discarded (`let _ =`). -/
def tokensReturned (expected startT endT : ℕ) (res : RespResult) (poolOpen : Bool) : ℕ :=
  if (requestTask expected startT endT res).isSome then (if poolOpen then 1 else 0) else 0

/-- Composition of the timer thread with the request tasks: the number of
records the aggregator receives is the number of ticks whose request task
did not panic (`responses k` is the response observed by the `k`-th
issued request). -/
def runReceived (slack : ℚ) (now : ℕ → ℚ) (offsets : List ℚ) (expected : ℕ)
    (responses : ℕ → RespResult) : ℕ :=
  ((List.range (taskTimer slack now offsets).1).filter
    (fun k => (requestTask expected 0 0 (responses k)).isSome)).length

/-- The run's terminal result: the timer thread's error, propagated by
`task_timer.await??` (`main.rs` line 327). -/
def runResult (slack : ℚ) (now : ℕ → ℚ) (offsets : List ℚ) : Except String Unit :=
  finishRun (taskTimer slack now offsets)

/-! ## Token pool (`main.rs` lines 207-208, 234-248, 283) -/

/-- State of the user-token pool: `free` tokens in the `user_tx`/`user_rx`
channel, `inflight` requests holding a token. -/
structure PoolState where
  free : ℕ
  inflight : ℕ
deriving DecidableEq, Repr

/-- Events of the closed-loop admission protocol.  `issue`: the spawner
receives a token (`user_rx.recv().await`, `main.rs` line 245) and spawns a
request — it suspends when the pool is empty, so the event is only enabled
with a free token.  `complete returned`: a request finishes and attempts
to return its token (`main.rs` line 283); `returned = false` models the
best-effort send failing because the receiving side shut down. -/
inductive PoolEvent
  | issue
  | complete (returned : Bool)
deriving DecidableEq, Repr

/-- One transition of the token pool; `none` when the event is not enabled. -/
def poolStep (s : PoolState) : PoolEvent → Option PoolState
  | .issue =>
      if s.free = 0 then none
      else some ⟨s.free - 1, s.inflight + 1⟩
  | .complete ret =>
      if s.inflight = 0 then none
      else some ⟨s.free + (if ret then 1 else 0), s.inflight - 1⟩

/-- Execute a trace of pool events. -/
def poolExec (s : PoolState) : List PoolEvent → Option PoolState
  | [] => some s
  | e :: es => (poolStep s e).bind (fun s2 => poolExec s2 es)

/-- The initial pool: `num_users = K` tokens sent into the channel
(`main.rs` lines 234-236), no request outstanding. -/
def poolInit (K : ℕ) : PoolState := ⟨K, 0⟩

/-! ## Lemmas about the aggregator -/

theorem aggregateGo_records (nw : ℕ) :
    ∀ (rs : List Record) (nr : ℕ) (log : BenchLog),
      (aggregateGo nw nr log rs).records = log.records ++ rs.drop (nw - nr) := by
  intro rs
  induction rs with
  | nil => intro nr log; simp [aggregateGo]
  | cons r rest ih =>
      intro nr log
      rw [aggregateGo]
      by_cases hcmp : nw < nr + 1
      · rw [if_pos hcmp, ih]
        have h1 : nw - nr = 0 := by omega
        have h2 : nw - (nr + 1) = 0 := by omega
        simp [h1, h2, BenchLog.add_record]
      · rw [if_neg hcmp, ih]
        have h1 : nw - nr = (nw - (nr + 1)) + 1 := by omega
        rw [h1, List.drop_succ_cons]

/-- C2 support: the aggregator keeps exactly the suffix after the first
`num_warmup` records. -/
theorem aggregate_records (nw : ℕ) (rs : List Record) :
    (aggregate nw rs).records = rs.drop nw := by
  rw [aggregate, aggregateGo_records]
  simp [BenchLog.new]

/-- C2: if the aggregator receives `N` outcomes and `num_warmup = W` — the
sum of the warm-up ramp's per-second rates, `0` when warm-up is disabled —
then exactly the first `W` outcomes in arrival order are discarded and
exactly `max (0, N - W)` outcomes are present in the final statistics. -/
theorem warmup_discards_first_W (no_warmup : Bool) (rate : ℕ) (rs : List Record) :
    (aggregate (numWarmup no_warmup rate) rs).records = rs.drop (numWarmup no_warmup rate) ∧
    (aggregate (numWarmup no_warmup rate) rs).total =
      rs.length - numWarmup no_warmup rate ∧
    numWarmup true rate = 0 ∧
    numWarmup false rate = (warmupRates rate).sum := by
  refine ⟨aggregate_records _ _, ?_, rfl, rfl⟩
  rw [BenchLog.total, aggregate_records, List.length_drop]

/-! ## Lemmas about percentile selection -/

/-- C1: for every non-empty sample list and every percentile `p` among
`{50, 90, 95, 99, 99.9, 100}`, `BenchLog::latencies` sorts the samples and
returns the element of the sorted list at rank
`clamp(⌊(N·p - 1)/100⌋, 0, N - 1)`; for `p = 100` the returned element is
the maximum sample. -/
theorem percentile_rank_clamp (log : BenchLog) (p : ℚ)
    (hne : log.records ≠ [])
    (hp : p ∈ ([50, 90, 95, 99, 999/10, 100] : List ℚ)) :
    log.latencies [p] =
      [(List.insertionSort (fun a b => a ≤ b) (log.records.map Record.duration)).getD
         ((min (max ⌊((log.records.length : ℚ) * p - 1) / 100⌋ 0)
             ((log.records.length : ℤ) - 1)).toNat) 0] ∧
    (p = 100 →
      (log.latencies [p]).headI ∈ log.records.map Record.duration ∧
      ∀ x ∈ log.records.map Record.duration, x ≤ (log.latencies [p]).headI) := by
  have hN : 1 ≤ log.records.length := List.length_pos.mpr hne
  set N := log.records.length with hNdef
  set lat := List.insertionSort (fun a b => a ≤ b) (log.records.map Record.duration) with hlatdef
  have hlen : lat.length = N := by
    rw [hlatdef, List.length_insertionSort, List.length_map]
  have hp1 : 1 ≤ p ∧ p ≤ 100 := by
    simp only [List.mem_cons, List.not_mem_nil, or_false] at hp
    rcases hp with h | h | h | h | h | h <;> subst h <;> norm_num
  have hNq : (1 : ℚ) ≤ (N : ℚ) := by exact_mod_cast hN
  have hfl0 : 0 ≤ ⌊((N : ℚ) * p - 1) / 100⌋ := by
    apply Int.le_floor.mpr
    push_cast
    have hNp : (1 : ℚ) ≤ (N : ℚ) * p := by nlinarith [hp1.1]
    have : (0 : ℚ) ≤ (N : ℚ) * p - 1 := by linarith
    positivity
  have hflN : ⌊((N : ℚ) * p - 1) / 100⌋ ≤ (N : ℤ) - 1 := by
    have hlt : ⌊((N : ℚ) * p - 1) / 100⌋ < (N : ℤ) := by
      apply Int.floor_lt.mpr
      push_cast
      rw [div_lt_iff (by norm_num : (0 : ℚ) < 100)]
      nlinarith [hp1.2]
    omega
  have hclamp : (min (max ⌊((N : ℚ) * p - 1) / 100⌋ 0) ((N : ℤ) - 1)).toNat =
      rustCastUsize (((N : ℚ) * p - 1) / 100) := by
    rw [rustCastUsize, max_eq_left hfl0, min_eq_left hflN]
  have ha : log.latencies [p] = [lat.getD (rustCastUsize (((N : ℚ) * p - 1) / 100)) 0] := by
    simp only [BenchLog.latencies, List.map_cons, List.map_nil]
    rw [← hlatdef, hlen]
  refine ⟨by rw [ha, hclamp], ?_⟩
  intro hp100
  subst hp100
  have hidx : ⌊((N : ℚ) * 100 - 1) / 100⌋ = (N : ℤ) - 1 := by
    rw [Int.floor_eq_iff]
    constructor
    · push_cast
      rw [le_div_iff₀ (by norm_num : (0 : ℚ) < 100)]
      linarith
    · push_cast
      rw [div_lt_iff₀ (by norm_num : (0 : ℚ) < 100)]
      linarith
  have hcast : rustCastUsize (((N : ℚ) * 100 - 1) / 100) = N - 1 := by
    rw [rustCastUsize, hidx]
    omega
  have hranges : N - 1 < lat.length := by omega
  have hgetD : lat.getD (N - 1) 0 = lat.get ⟨N - 1, hranges⟩ := by
    rw [List.getD_eq_getElem _ _ hranges, List.get_eq_getElem]
  have hhead : (log.latencies [(100 : ℚ)]).headI = lat.getD (N - 1) 0 := by
    rw [ha, hcast, List.headI_cons]
  have hmemlat : lat.getD (N - 1) 0 ∈ lat := by
    rw [hgetD]
    exact List.get_mem lat _ _
  have hsorted : lat.Sorted (fun a b => a ≤ b) :=
    List.sorted_insertionSort (fun a b => a ≤ b) (log.records.map Record.duration)
  constructor
  · rw [hhead]
    exact (List.mem_insertionSort (fun a b => a ≤ b)).mp hmemlat
  · intro x hx
    rw [hhead, hgetD]
    have hxl : x ∈ lat := (List.mem_insertionSort (fun a b => a ≤ b)).mpr hx
    obtain ⟨i, hxe⟩ := List.mem_iff_get.mp hxl
    rw [← hxe]
    apply hsorted.rel_get_of_le
    have := i.isLt
    simp only [Fin.le_def]
    omega

/-! ## Lemmas about the constant-rate schedule -/

theorem toList_eq_range (r : ℕ) (hr : 0 < r) (D e : ℕ) :
    ∀ (n j : ℕ), D * r = j + n →
      ConstGen.toList ⟨(j : ℚ) / (r : ℚ), (D : ℚ), 1 / (r : ℚ), e⟩ =
        (List.range n).map (fun (k : ℕ) => ((j : ℚ) + (k : ℚ) + 1) / (r : ℚ)) := by
  have hrq : (0 : ℚ) < (r : ℚ) := by exact_mod_cast hr
  intro n
  induction n with
  | zero =>
      intro j hj
      rw [ConstGen.toList]
      rw [dif_neg]
      · simp
      · rintro ⟨-, hlt⟩
        rw [div_lt_iff₀ hrq] at hlt
        have : (j : ℚ) < (D : ℚ) * (r : ℚ) := hlt
        have : j < D * r := by exact_mod_cast this
        omega
  | succ n ih =>
      intro j hj
      rw [ConstGen.toList]
      rw [dif_pos]
      · have hstep : (j : ℚ) / (r : ℚ) + 1 / (r : ℚ) = ((j + 1 : ℕ) : ℚ) / (r : ℚ) := by
          push_cast
          rw [div_add_div_same]
        have hrec := ih (j + 1) (by omega)
        simp only [hstep]
        rw [hrec, List.range_succ_eq_map, List.map_cons, List.map_map]
        congr 1
        · push_cast
          ring_nf
        · apply List.map_congr_left
          intro k hk
          simp only [Function.comp_apply]
          push_cast
          ring_nf
      · constructor
        · simp only
          positivity
        · simp only
          rw [div_lt_iff₀ hrq]
          have : j < D * r := by omega
          exact_mod_cast this

theorem constGen_eq (D r : ℕ) (hr : 0 < r) :
    constGen D r = (List.range (D * r)).map (fun (k : ℕ) => ((k : ℚ) + 1) / (r : ℚ)) := by
  have h := toList_eq_range r hr D (D * r) (D * r) 0 (by omega)
  simp only [Nat.cast_zero, zero_div, zero_add] at h
  rw [constGen, ConstGen.new]
  exact h

/-- C3 (amended): for whole-second duration `D` and rate `r > 0`, the
constant-rate schedule has length exactly `D·r` (which equals
`expected_len`), its offsets are `(k+1)/r` for `k = 0, …, D·r - 1` —
strictly increasing — and every offset is at most `D`; the final offset
equals `D` exactly, so not every offset is strictly below `D`. -/
theorem constGen_schedule (D r : ℕ) (hr : 0 < r) :
    constGen D r = (List.range (D * r)).map (fun (k : ℕ) => ((k : ℚ) + 1) / (r : ℚ)) ∧
    (constGen D r).length = D * r ∧
    (ConstGen.new D r).expected_len = D * r ∧
    (constGen D r).Pairwise (fun a b => a < b) ∧
    (∀ x ∈ constGen D r, x ≤ (D : ℚ)) := by
  have hrq : (0 : ℚ) < (r : ℚ) := by exact_mod_cast hr
  have heq := constGen_eq D r hr
  refine ⟨heq, by rw [heq, List.length_map, List.length_range], rfl, ?_, ?_⟩
  · rw [heq]
    refine List.Pairwise.map _ ?_ (List.pairwise_lt_range (D * r))
    intro a b hab
    rw [div_lt_div_right hrq]
    have : (a : ℚ) < (b : ℚ) := by exact_mod_cast hab
    linarith
  · intro x hx
    rw [heq] at hx
    obtain ⟨k, hk, rfl⟩ := List.mem_map.mp hx
    rw [List.mem_range] at hk
    rw [div_le_iff₀ hrq]
    have : (k : ℚ) + 1 ≤ (D : ℚ) * (r : ℚ) := by
      have : k + 1 ≤ D * r := hk
      exact_mod_cast this
    exact this

/-! ## Lemmas about the dispatcher timer -/

theorem timerRun_error_of_violation (slack : ℚ) (now : ℕ → ℚ) :
    ∀ (l : List ℚ) (n : ℕ),
      (∃ k, ∃ hk : k < l.length, slack < now (n + k) - l.get ⟨k, hk⟩) →
      (timerRun slack now l n).2 = some "Could not keep up" := by
  intro l
  induction l with
  | nil =>
      rintro n ⟨k, hk, -⟩
      simp at hk
  | cons d rest ih =>
      rintro n ⟨k, hk, hv⟩
      rw [timerRun]
      by_cases hd : slack < now n - d
      · rw [if_pos hd]
      · rw [if_neg hd]
        apply ih
        cases k with
        | zero =>
            exfalso
            apply hd
            simpa using hv
        | succ k2 =>
            have hk2 : k2 < rest.length := by
              simpa using Nat.lt_of_succ_lt_succ hk
            refine ⟨k2, hk2, ?_⟩
            have harith : n + 1 + k2 = n + (k2 + 1) := by omega
            rw [harith]
            simpa using hv

theorem timerRun_ok_ticks (slack : ℚ) (now : ℕ → ℚ) :
    ∀ (l : List ℚ) (n : ℕ), (timerRun slack now l n).2 = none →
      (timerRun slack now l n).1 = n + l.length := by
  intro l
  induction l with
  | nil =>
      intro n _
      simp [timerRun]
  | cons d rest ih =>
      intro n h
      rw [timerRun] at h ⊢
      by_cases hd : slack < now n - d
      · rw [if_pos hd] at h
        simp at h
      · rw [if_neg hd] at h ⊢
        rw [ih _ h, List.length_cons]
        omega

theorem timerRun_msg (slack : ℚ) (now : ℕ → ℚ) :
    ∀ (l : List ℚ) (n : ℕ) (e : String), (timerRun slack now l n).2 = some e →
      e = "Could not keep up" := by
  intro l
  induction l with
  | nil =>
      intro n e h
      simp [timerRun] at h
  | cons d rest ih =>
      intro n e h
      rw [timerRun] at h
      by_cases hd : slack < now n - d
      · rw [if_pos hd] at h
        simpa using h.symm
      · rw [if_neg hd] at h
        exact ih _ _ h

theorem unboundedLoop_eq_find (D : ℚ) (clock : ℕ → ℚ) (hex : ∃ n, D ≤ clock n)
    (hmono : ∀ a b, a ≤ b → clock a ≤ clock b) :
    ∀ (m i : ℕ), Nat.find hex - i = m → i ≤ Nat.find hex →
      unboundedLoop D clock hex hmono i = Nat.find hex - i := by
  intro m
  induction m with
  | zero =>
      intro i hm hle
      have hi : i = Nat.find hex := by omega
      rw [unboundedLoop, dif_neg, hm]
      subst hi
      exact not_lt.mpr (Nat.find_spec hex)
  | succ m ih =>
      intro i hm hle
      have hi : i < Nat.find hex := by omega
      have hclock : clock i < D := not_le.mp (Nat.find_min hex hi)
      rw [unboundedLoop, dif_pos hclock, ih (i + 1) (by omega) (by omega)]
      omega

/-- C4: when the schedule has an offset that the dispatcher examines more
than the slack threshold after its deadline, the timer thread returns the
fatal `Could not keep up` error and `task_timer.await??` makes it the
run's terminal error; when `rate = 0`, ticks are emitted back-to-back
exactly until the wall clock reaches the duration, with no deadline check
and no error. -/
theorem dispatcher_overload_aborts (slack : ℚ) (now : ℕ → ℚ) (offsets : List ℚ)
    (D : ℚ) (clock : ℕ → ℚ) (hex : ∃ n, D ≤ clock n)
    (hmono : ∀ a b, a ≤ b → clock a ≤ clock b)
    (hviol : ∃ k, ∃ hk : k < offsets.length, slack < now k - offsets.get ⟨k, hk⟩) :
    runResult slack now offsets = .error "Could not keep up" ∧
    (∀ m, m < unboundedTicks D clock hex hmono → clock m < D) ∧
    D ≤ clock (unboundedTicks D clock hex hmono) := by
  have hticks : unboundedTicks D clock hex hmono = Nat.find hex := by
    rw [unboundedTicks, unboundedLoop_eq_find D clock hex hmono (Nat.find hex) 0 (by omega)
      (by omega)]
    omega
  refine ⟨?_, ?_, ?_⟩
  · have herr : (taskTimer slack now offsets).2 = some "Could not keep up" := by
      apply timerRun_error_of_violation
      obtain ⟨k, hk, hv⟩ := hviol
      exact ⟨k, hk, by simpa using hv⟩
    rw [runResult]
    rcases hpair : taskTimer slack now offsets with ⟨t, err⟩
    rw [hpair] at herr
    simp only at herr
    rw [herr, finishRun]
  · intro m hm
    rw [hticks] at hm
    exact not_le.mp (Nat.find_min hex hm)
  · rw [hticks]
    exact Nat.find_spec hex

/-- C5 (amended): if every issued request's task completes without
panicking, then receiving fewer outcomes than the schedule's expected
length forces the dispatcher to have aborted, and the run terminates with
the `Could not keep up` error. -/
theorem fewer_outcomes_fails (slack : ℚ) (now : ℕ → ℚ) (offsets : List ℚ)
    (expected : ℕ) (responses : ℕ → RespResult)
    (hall : ∀ k, (requestTask expected 0 0 (responses k)).isSome = true)
    (hlt : runReceived slack now offsets expected responses < offsets.length) :
    runResult slack now offsets = .error "Could not keep up" := by
  have hrecv : runReceived slack now offsets expected responses =
      (taskTimer slack now offsets).1 := by
    rw [runReceived, List.filter_eq_self.mpr (fun a _ => hall a), List.length_range]
  rcases htt : (taskTimer slack now offsets).2 with _ | e
  · exfalso
    have := timerRun_ok_ticks slack now offsets 0 htt
    rw [taskTimer] at hrecv
    omega
  · have hmsg := timerRun_msg slack now offsets 0 e htt
    subst hmsg
    rw [runResult]
    rcases hpair : taskTimer slack now offsets with ⟨t, err⟩
    rw [hpair] at htt
    simp only at htt
    rw [htt, finishRun]

/-! ## Lemmas about the request task -/

/-- C6 (amended): when a request completes with a non-error HTTP status and
an expected checksum is configured, the response payload is decoded as a
big-endian 64-bit integer and compared — but a mismatch makes the request
task fail its `assert_eq!` and panic: no outcome record is emitted at all,
so the mismatch is not folded into the ordinary error counts, and no
distinct integrity counter exists or is incremented. -/
theorem checksum_mismatch_panics (expected s startT endT : ℕ) (body : List ℕ)
    (hne : beDecode body ≠ expected) :
    requestTask expected startT endT (.success s body) = none ∧
    ∀ nw, aggregate nw (requestTask expected startT endT (.success s body)).toList =
      aggregate nw [] := by
  have hnone : requestTask expected startT endT (.success s body) = none := by
    rw [requestTask]
    by_cases hlen : body.length = 8
    · rw [if_pos hlen, if_neg hne]
    · rw [if_neg hlen]
  exact ⟨hnone, fun nw => by rw [hnone]; rfl⟩

/-- C7 (amended): on every non-panicking path — a timeout, a transport or
status error, or a success whose 8-byte payload decodes to the expected
checksum — the request task emits exactly one outcome record and makes
exactly one best-effort token-return attempt: the token lands exactly when
the pool's receiving side is still open, and a failed return does not
affect the emitted record.  (A failed body assertion panics the task and
emits nothing; see the counterexample.) -/
theorem one_outcome_per_request (expected startT endT : ℕ) (res : RespResult)
    (hok : ∀ s body, res = .success s body → body.length = 8 ∧ beDecode body = expected) :
    recordsEmitted expected startT endT res = 1 ∧
    tokensReturned expected startT endT res true = 1 ∧
    tokensReturned expected startT endT res false = 0 := by
  have hsome : (requestTask expected startT endT res).isSome = true := by
    cases res with
    | success s body =>
        obtain ⟨hlen, hsum⟩ := hok s body rfl
        rw [requestTask, if_pos hlen, if_pos hsum]
        rfl
    | failure t st =>
        cases t <;> rw [requestTask] <;> rfl
  obtain ⟨r, hr⟩ := Option.isSome_iff_exists.mp hsome
  refine ⟨?_, ?_, ?_⟩
  · rw [recordsEmitted, hr]
    rfl
  · rw [tokensReturned, hr]
    rfl
  · rw [tokensReturned, hr]
    rfl

/-! ## Lemmas about the token pool -/

theorem poolExec_invariant (K : ℕ) :
    ∀ (tr : List PoolEvent) (s s2 : PoolState),
      s.free + s.inflight ≤ K → poolExec s tr = some s2 →
      s2.free + s2.inflight ≤ K := by
  intro tr
  induction tr with
  | nil =>
      intro s s2 h hx
      rw [poolExec] at hx
      cases hx
      exact h
  | cons e es ih =>
      intro s s2 h hx
      rw [poolExec] at hx
      cases e with
      | issue =>
          rw [poolStep] at hx
          by_cases hz : s.free = 0
          · rw [if_pos hz] at hx
            simp at hx
          · rw [if_neg hz] at hx
            rw [Option.some_bind] at hx
            exact ih _ _ (by simp only; omega) hx
      | complete ret =>
          rw [poolStep] at hx
          by_cases hz : s.inflight = 0
          · rw [if_pos hz] at hx
            simp at hx
          · rw [if_neg hz] at hx
            rw [Option.some_bind] at hx
            refine ih _ _ ?_ hx
            simp only
            cases ret <;> simp <;> omega

/-- C8: with a closed-loop bound of `K` users, a request is issued only by
first taking one of the `K` interchangeable tokens out of the pool
(suspending when none is free), and a token comes back only when a request
completes; along every reachable execution the number of concurrently
outstanding requests never exceeds `K`. -/
theorem concurrency_bounded (K : ℕ) (tr : List PoolEvent) (s : PoolState)
    (hs : poolExec (poolInit K) tr = some s) :
    s.inflight ≤ K ∧ s.free + s.inflight ≤ K := by
  have h := poolExec_invariant K tr (poolInit K) s (by simp [poolInit]) hs
  exact ⟨by omega, h⟩

/-! ## Lemmas about the hot/cold router -/

theorem hotNext_pos (g : HotGenerator) (hge : 1 ≤ g.request_counter + g.hot_percent) :
    g.next = (true, ⟨g.hot_percent, g.request_counter + g.hot_percent - 1⟩) := by
  simp only [HotGenerator.next]
  rw [if_pos hge]

theorem hotNext_neg (g : HotGenerator) (hge : ¬ 1 ≤ g.request_counter + g.hot_percent) :
    g.next = (false, ⟨g.hot_percent, g.request_counter + g.hot_percent⟩) := by
  simp only [HotGenerator.next]
  rw [if_neg hge]

theorem hotRun_succ (g : HotGenerator) (n : ℕ) :
    g.run (n + 1) =
      ((if (g.next).1 then 1 else 0) + ((g.next).2.run n).1, ((g.next).2.run n).2) := rfl

theorem hotRun_counter_mem (n : ℕ) :
    ∀ (g : HotGenerator), 0 ≤ g.hot_percent → g.hot_percent ≤ 1 →
      0 ≤ g.request_counter → g.request_counter < 1 →
      0 ≤ (g.run n).2.request_counter ∧ (g.run n).2.request_counter < 1 := by
  induction n with
  | zero =>
      intro g _ _ hc0 hc1
      exact ⟨hc0, hc1⟩
  | succ n ih =>
      intro g h0 h1 hc0 hc1
      rw [hotRun_succ]
      by_cases hge : 1 ≤ g.request_counter + g.hot_percent
      · rw [hotNext_pos g hge]
        exact ih ⟨g.hot_percent, g.request_counter + g.hot_percent - 1⟩ h0 h1
          (by show (0 : ℚ) ≤ g.request_counter + g.hot_percent - 1; linarith)
          (by show g.request_counter + g.hot_percent - 1 < 1; linarith)
      · rw [hotNext_neg g hge]
        push_neg at hge
        exact ih ⟨g.hot_percent, g.request_counter + g.hot_percent⟩ h0 h1
          (by show (0 : ℚ) ≤ g.request_counter + g.hot_percent; linarith)
          (by show g.request_counter + g.hot_percent < 1; linarith)

theorem hotRun_conservation (n : ℕ) :
    ∀ (g : HotGenerator),
      (g.run n).2.request_counter + ((g.run n).1 : ℚ) =
        g.request_counter + (n : ℚ) * g.hot_percent := by
  induction n with
  | zero =>
      intro g
      simp [HotGenerator.run]
  | succ n ih =>
      intro g
      rw [hotRun_succ]
      by_cases hge : 1 ≤ g.request_counter + g.hot_percent
      · rw [hotNext_pos g hge]
        have hih := ih ⟨g.hot_percent, g.request_counter + g.hot_percent - 1⟩
        simp only at hih ⊢
        push_cast
        push_cast at hih
        ring_nf
        ring_nf at hih
        linarith
      · rw [hotNext_neg g hge]
        have hih := ih ⟨g.hot_percent, g.request_counter + g.hot_percent⟩
        simp only at hih ⊢
        push_cast
        push_cast at hih
        ring_nf
        ring_nf at hih
        linarith

/-- C9: for `hot_percent = h ∈ [0,1]`, an initial counter in `[0,1)` and any
positive request count `n`: the router adds `h` to the counter once per
request and routes hot exactly when the counter reaches `1.0` (subtracting
`1.0` on the crossing), the counter stays in `[0,1)`, the realized
hot-routed fraction is within `1/n` of `h`, and with `h = 1` every request
is hot-routed. -/
theorem hot_fraction (h c : ℚ) (n : ℕ)
    (h0 : 0 ≤ h) (h1 : h ≤ 1) (hc0 : 0 ≤ c) (hc1 : c < 1) (hn : 0 < n) :
    (∀ g : HotGenerator, (g.next).1 = true ↔ 1 ≤ g.request_counter + g.hot_percent) ∧
    (∀ m : ℕ, 0 ≤ ((HotGenerator.mk h c).run m).2.request_counter ∧
      ((HotGenerator.mk h c).run m).2.request_counter < 1) ∧
    |(((HotGenerator.mk h c).run n).1 : ℚ) / (n : ℚ) - h| ≤ 1 / (n : ℚ) ∧
    (h = 1 → ((HotGenerator.mk h c).run n).1 = n) := by
  have hnq : (0 : ℚ) < (n : ℚ) := by exact_mod_cast hn
  have hcons := hotRun_conservation n (HotGenerator.mk h c)
  have hmem := hotRun_counter_mem n (HotGenerator.mk h c) h0 h1 hc0 hc1
  simp only at hcons hmem
  set cnt := ((HotGenerator.mk h c).run n).1 with hcnt
  set fin := ((HotGenerator.mk h c).run n).2.request_counter with hfin
  have hdiff : (cnt : ℚ) - (n : ℚ) * h = c - fin := by linarith
  have habs : |(cnt : ℚ) - (n : ℚ) * h| ≤ 1 := by
    rw [abs_le]
    constructor <;> [linarith [hmem.2, hc0]; linarith [hmem.1, hc1]]
  refine ⟨?_, ?_, ?_, ?_⟩
  · intro g
    rw [HotGenerator.next]
    by_cases hge : 1 ≤ g.request_counter + g.hot_percent
    · rw [if_pos hge]
      simpa using hge
    · rw [if_neg hge]
      simpa using hge
  · intro m
    exact hotRun_counter_mem m (HotGenerator.mk h c) h0 h1 hc0 hc1
  · have hre : (cnt : ℚ) / (n : ℚ) - h = ((cnt : ℚ) - (n : ℚ) * h) / (n : ℚ) := by
      field_simp
    rw [hre, abs_div, abs_of_pos hnq]
    exact (div_le_div_right hnq).mpr habs
  · intro hh1
    subst hh1
    have h2 : (cnt : ℚ) - (n : ℚ) * 1 = c - fin := hdiff
    have hlow : (n : ℚ) - 1 < (cnt : ℚ) := by linarith [hmem.2, hc0]
    have hhigh : (cnt : ℚ) < (n : ℚ) + 1 := by linarith [hmem.1, hc1]
    have hlown : n - 1 < cnt ∨ n ≤ cnt := by
      right
      by_contra hcon
      push_neg at hcon
      have : (cnt : ℚ) ≤ (n : ℚ) - 1 := by
        have : (cnt : ℚ) + 1 ≤ (n : ℚ) := by exact_mod_cast hcon
        linarith
      linarith
    have hhighn : cnt ≤ n := by
      by_contra hcon
      push_neg at hcon
      have : (n : ℚ) + 1 ≤ (cnt : ℚ) := by exact_mod_cast hcon
      linarith
    omega

/-! ## Lemmas about the workload checksum -/

theorem foldl_mod (f : ℕ → ℕ) :
    ∀ (l : List ℕ) (a : ℕ),
      l.foldl (fun acc k => (acc + f k % U64) % U64) (a % U64) =
        (a + (l.map f).sum) % U64 := by
  intro l
  induction l with
  | nil =>
      intro a
      simp
  | cons k t ih =>
      intro a
      rw [List.foldl_cons]
      have hstep : (a % U64 + f k % U64) % U64 = (a + f k) % U64 := by
        conv_rhs => rw [Nat.add_mod]
      rw [hstep, ih (a + f k), List.map_cons, List.sum_cons]
      ring_nf

theorem mmEntry_eq_sum (n i j : ℕ) :
    mmEntry n i j =
      ((List.range n).map (fun k => inMat (i * n + k) * inMat (j * n + k))).sum % U64 := by
  rw [mmEntry]
  have h0 : (0 : ℕ) = 0 % U64 := by rfl
  rw [h0, foldl_mod]
  rw [Nat.zero_add]

/-- C10: `RequestType::checksum` is a total, deterministic function of the
request type and `input_size` for `input_size ≥ 1`: `Matmul` returns the
last element of `A·Aᵀ` where `A` is the row-major `N×N` matrix with
entries `1..N²` (under `u64` wrapping arithmetic), `Compute` returns
`input_size`, `Io` returns `2000000`; for `Matmul` with `input_size = 0`
the last-element index `out_mat.len() - 1` on the empty `out_mat` makes
the computation panic. -/
theorem checksum_spec (n : ℕ) (hn : 1 ≤ n) :
    checksum .matmul n = some (specAATLast n) ∧
    checksum .compute n = some n ∧
    checksum .io n = some 2000000 ∧
    checksum .matmul 0 = none := by
  obtain ⟨m, rfl⟩ : ∃ m, n = m + 1 := ⟨n - 1, by omega⟩
  refine ⟨?_, rfl, rfl, rfl⟩
  show (if (outMat (m + 1)).length = 0 then none
    else some ((outMat (m + 1)).getD ((outMat (m + 1)).length - 1) 0)) =
      some (specAATLast (m + 1))
  have hlen : (outMat (m + 1)).length = (m + 1) * (m + 1) := by
    rw [outMat, List.length_map, List.length_range]
  rw [if_neg (by rw [hlen]; positivity)]
  congr 1
  have hidx : (outMat (m + 1)).length - 1 = (m + 1) * (m + 1) - 1 := by rw [hlen]
  have hexp : (m + 1) * (m + 1) = m * (m + 1) + m + 1 := by ring
  have harith : (m + 1) * (m + 1) - 1 = m * (m + 1) + m := by
    rw [hexp]
    exact Nat.succ_sub_one (m * (m + 1) + m)
  have hlt : (m + 1) * (m + 1) - 1 < (m + 1) * (m + 1) := by
    rw [harith, hexp]
    omega
  have hdiv : ((m + 1) * (m + 1) - 1) / (m + 1) = m := by
    rw [harith, Nat.add_comm (m * (m + 1)) m, Nat.mul_comm m (m + 1),
      Nat.add_mul_div_left m m (show 0 < m + 1 by omega),
      Nat.div_eq_of_lt (Nat.lt_succ_self m), Nat.zero_add]
  have hmod : ((m + 1) * (m + 1) - 1) % (m + 1) = m := by
    rw [harith, Nat.add_comm (m * (m + 1)) m, Nat.mul_comm m (m + 1),
      Nat.add_mul_mod_self_left, Nat.mod_eq_of_lt (Nat.lt_succ_self m)]
  rw [hidx, outMat,
    List.getD_eq_getElem _ _ (by rw [List.length_map, List.length_range]; exact hlt),
    List.getElem_map, List.getElem_range, hdiv, hmod, mmEntry_eq_sum, specAATLast]
  simp only [specA, inMat, Nat.add_sub_cancel]

/-! ## Concrete counterexamples and witnesses -/

/-- C3 counterexample: with duration 1 s and rate 1 the schedule is `[1]` —
its only offset equals the duration, so the claim that every offset is
strictly less than the duration fails. -/
theorem constGen_offset_reaches_duration :
    constGen 1 1 = [(1 : ℚ)] ∧ ¬ (∀ x ∈ constGen 1 1, x < ((1 : ℕ) : ℚ)) := by
  have h : constGen 1 1 = [(1 : ℚ)] := by
    rw [constGen_eq 1 1 (by omega)]
    norm_num [List.range_succ]
  refine ⟨h, ?_⟩
  intro hall
  have h1 := hall 1 (by rw [h]; exact List.mem_singleton.mpr rfl)
  push_cast at h1
  exact absurd h1 (lt_irrefl 1)

/-- C3 witness: the amended schedule theorem applied at duration 1 s and
rate 2. -/
theorem constGen_schedule_witness : (constGen 1 2).length = 1 * 2 :=
  (constGen_schedule 1 2 (by omega)).2.1

/-- C1 witness: the percentile theorem applied to a concrete two-sample log
at `p = 100`: the returned element is a sample and an upper bound of all
samples. -/
theorem percentile_rank_clamp_witness :
    ((BenchLog.mk [Record.mk 0 5 false false none, Record.mk 0 3 false false none] 0 0).latencies
        [100]).headI ∈
      (BenchLog.mk [Record.mk 0 5 false false none, Record.mk 0 3 false false none]
        0 0).records.map Record.duration ∧
    ∀ x ∈ (BenchLog.mk [Record.mk 0 5 false false none, Record.mk 0 3 false false none]
        0 0).records.map Record.duration,
      x ≤ ((BenchLog.mk [Record.mk 0 5 false false none, Record.mk 0 3 false false none]
        0 0).latencies [100]).headI :=
  (percentile_rank_clamp
    (BenchLog.mk [Record.mk 0 5 false false none, Record.mk 0 3 false false none] 0 0) 100
    (by simp) (by norm_num)).2 rfl

/-- C4 witness: a schedule whose first offset is examined a full second
late (slack 100 ms) makes the run terminate with the fatal error; the
instantiated unbounded-mode clock is `clock n = n` with duration 1. -/
theorem dispatcher_overload_witness :
    runResult (1 / 10) (fun _ => 1) [(0 : ℚ)] = .error "Could not keep up" := by
  have h := dispatcher_overload_aborts (1 / 10) (fun _ => 1) [(0 : ℚ)] 1 (fun n => (n : ℚ))
    ⟨1, by norm_num⟩ (fun a b hab => Nat.cast_le.mpr hab)
    ⟨0, by norm_num, by show (1 / 10 : ℚ) < (1 : ℚ) - 0; norm_num⟩
  exact h.1

/-- C5 counterexample: one scheduled request is dispatched on time, its
response fails the checksum assertion, so the task panics and zero
outcomes are received — fewer than the schedule's expected length — yet
the run terminates successfully with `Ok(())`. -/
theorem received_lt_expected_but_ok :
    runReceived (1 / 10) (fun _ => 0) [(0 : ℚ)] 1 (fun _ => .success 200 (List.replicate 8 0)) =
      0 ∧
    ([(0 : ℚ)] : List ℚ).length = 1 ∧
    runResult (1 / 10) (fun _ => 0) [(0 : ℚ)] = .ok () := by
  have htimer : taskTimer (1 / 10) (fun _ => (0 : ℚ)) [(0 : ℚ)] = (1, none) := by
    rw [taskTimer, timerRun, if_neg (by norm_num)]
    rfl
  refine ⟨?_, rfl, ?_⟩
  · rw [runReceived, htimer]
    decide
  · rw [runResult, htimer]
    rfl

/-- C5 witness: the amended theorem applied at a concrete overloaded run in
which every task completes (a timeout outcome) but the dispatcher aborted. -/
theorem fewer_outcomes_fails_witness :
    runResult (1 / 20) (fun _ => 1) [(0 : ℚ)] = .error "Could not keep up" := by
  have htimer : taskTimer (1 / 20) (fun _ => (1 : ℚ)) [(0 : ℚ)] =
      (0, some "Could not keep up") := by
    rw [taskTimer, timerRun, if_pos (by norm_num)]
  apply fewer_outcomes_fails (1 / 20) (fun _ => 1) [(0 : ℚ)] 0 (fun _ => .failure true none)
    (fun _ => rfl)
  rw [runReceived, htimer]
  decide

/-- C6 counterexample: a concrete success response whose 8-byte payload
decodes to `0 ≠ 1` is not recorded anywhere: the task panics, the log
stays empty and every counter stays `0` — no distinct integrity counter
exists to be incremented. -/
theorem mismatch_not_recorded :
    requestTask 1 0 0 (.success 200 (List.replicate 8 0)) = none ∧
    (aggregate 0 (requestTask 1 0 0 (.success 200 (List.replicate 8 0))).toList).errorTotal = 0 ∧
    (aggregate 0 (requestTask 1 0 0 (.success 200 (List.replicate 8 0))).toList).total = 0 := by
  refine ⟨rfl, rfl, rfl⟩

/-- C6 witness: the amended mismatch theorem applied at a concrete
mismatching body. -/
theorem checksum_mismatch_panics_witness :
    requestTask 7 0 0 (.success 200 (List.replicate 8 1)) = none :=
  (checksum_mismatch_panics 7 200 0 0 (List.replicate 8 1) (by decide)).1

/-- C7 counterexample: a request that succeeds at the HTTP level but whose
payload fails the checksum assertion emits zero outcome records, not
exactly one. -/
theorem success_without_outcome :
    recordsEmitted 1 0 0 (.success 200 (List.replicate 8 0)) = 0 := rfl

/-- C7 witness: the amended exactly-one-outcome theorem applied at a
concrete status-error response. -/
theorem one_outcome_per_request_witness :
    recordsEmitted 3 10 20 (.failure false (some 500)) = 1 ∧
    tokensReturned 3 10 20 (.failure false (some 500)) true = 1 ∧
    tokensReturned 3 10 20 (.failure false (some 500)) false = 0 :=
  one_outcome_per_request 3 10 20 (.failure false (some 500)) (fun s body h => nomatch h)

/-- C8 witness: the concurrency bound applied to the pool of one user after
one issue event. -/
theorem concurrency_bounded_witness :
    (PoolState.mk 0 1).inflight ≤ 1 ∧ (PoolState.mk 0 1).free + (PoolState.mk 0 1).inflight ≤ 1 :=
  concurrency_bounded 1 [PoolEvent.issue] (PoolState.mk 0 1) (by decide)

/-- C9 witness: the hot-fraction theorem applied at `h = 1`, counter `0`
and three requests: every request is hot-routed. -/
theorem hot_fraction_witness : ((HotGenerator.mk 1 0).run 3).1 = 3 :=
  (hot_fraction 1 0 3 (by norm_num) (by norm_num) (by norm_num) (by norm_num) (by norm_num)).2.2.2
    rfl

/-- C10 witness: the checksum theorem applied at `input_size = 2`. -/
theorem checksum_spec_witness :
    checksum .matmul 2 = some (specAATLast 2) ∧
    checksum .compute 2 = some 2 ∧
    checksum .io 2 = some 2000000 ∧
    checksum .matmul 0 = none :=
  checksum_spec 2 (by omega)

end RLoad
